import Mathlib

/-!
Shallow embedding of `cc/subtle/hmac_boringssl.cc` (Tink's HMAC primitive
over BoringSSL) and proofs of the specified properties.

Bytes are modelled as `Nat` (values below 256 in any real execution; the
bitwise operations used by the source are faithful on `Nat`).  The external
BoringSSL one-shot `HMAC` function is not part of this repository, so the
operations take it as an explicit function parameter of type `HmacFun`:
`none` models the `nullptr` failure return, `some dg` a digest written into
the output buffer.  BoringSSL guarantees that on success `out_len` equals
`EVP_MD_size(md)`; theorems that need this state it as a hypothesis on the
supplied digest.
-/

namespace Tink

/-- The `util::error` space, restricted to the codes this file uses. -/
inductive ErrorCode where
  | OK
  | INVALID_ARGUMENT
  | INTERNAL
  | UNIMPLEMENTED
deriving DecidableEq, Repr

/-- Model of `util::Status`: an error code together with a message. -/
structure Status where
  code : ErrorCode
  message : String
deriving DecidableEq, Repr

/-- Model of `util::Status::OK`. -/
def Status.OK : Status := ⟨ErrorCode.OK, ""⟩

/-- The `HashType` proto enum values this primitive can be asked about. -/
inductive HashType where
  | UNKNOWN_HASH
  | SHA1
  | SHA224
  | SHA256
  | SHA512
deriving DecidableEq, Repr

/-- An `EVP_MD` descriptor: all this file reads from it is `EVP_MD_size`. -/
structure EVP_MD where
  md_size : Nat
deriving DecidableEq, Repr

def EVP_sha1 : EVP_MD := ⟨20⟩
def EVP_sha224 : EVP_MD := ⟨28⟩
def EVP_sha256 : EVP_MD := ⟨32⟩
def EVP_sha512 : EVP_MD := ⟨64⟩

/-- Function `EvpHash`: maps a `HashType` to the BoringSSL digest descriptor;
any unlisted value yields `UNIMPLEMENTED, "Unsupported hash"`. -/
def EvpHash : HashType → Except Status EVP_MD
  | HashType.SHA1 => Except.ok EVP_sha1
  | HashType.SHA224 => Except.ok EVP_sha224
  | HashType.SHA256 => Except.ok EVP_sha256
  | HashType.SHA512 => Except.ok EVP_sha512
  | _ => Except.error ⟨ErrorCode.UNIMPLEMENTED, "Unsupported hash"⟩

/-- Type of the external one-shot `HMAC` function: descriptor, key bytes,
data bytes; `none` models the `nullptr` failure return. -/
def HmacFun : Type := EVP_MD → List Nat → List Nat → Option (List Nat)

/-- The `HmacBoringSsl` instance: descriptor, requested tag size (a C `int`),
and the secret key bytes. -/
structure HmacBoringSsl where
  md_ : EVP_MD
  tag_size_ : Int
  key_value_ : List Nat
deriving DecidableEq, Repr

/-- Factory `HmacBoringSsl::New`: resolve the hash, propagate its error, then check
`EVP_MD_size(md) < tag_size || tag_size <= 0` and fail with
`INTERNAL, "invalid tag size"`; otherwise construct the instance. -/
def HmacBoringSsl.New (hash_type : HashType) (tag_size : Int)
    (key_value : List Nat) : Except Status HmacBoringSsl :=
  match EvpHash hash_type with
  | Except.error st => Except.error st
  | Except.ok md =>
      if (md.md_size : Int) < tag_size ∨ tag_size ≤ 0 then
        Except.error ⟨ErrorCode.INTERNAL, "invalid tag size"⟩
      else
        Except.ok ⟨md, tag_size, key_value⟩

/-- Method `HmacBoringSsl::ComputeMac`: run the external HMAC; on `nullptr` fail
with `INTERNAL`; on success return `std::string(buf, tag_size_)`, i.e. the
first `tag_size_` bytes of the digest buffer. -/
def HmacBoringSsl.ComputeMac (H : HmacFun) (self : HmacBoringSsl)
    (data : List Nat) : Except Status (List Nat) :=
  match H self.md_ self.key_value_ data with
  | none =>
      Except.error ⟨ErrorCode.INTERNAL, "BoringSSL failed to compute HMAC"⟩
  | some buf => Except.ok (buf.take self.tag_size_.toNat)

/-- The accumulator of the comparison loop in `VerifyMac`:
`diff |= buf[i] ^ mac[i]` for `i = 0 .. n-1`, starting from `diff = 0`. -/
def diffFold (buf mac : List Nat) (n : Nat) : Nat :=
  (List.range n).foldl (fun d i => d ||| ((buf.getD i 0) ^^^ (mac.getD i 0))) 0

/-- The same loop instrumented with an iteration counter: each pass through
the body performs its byte operations and bumps the counter by one.  The
first component is the accumulated `diff`, the second the number of
iterations executed. -/
def verifyLoop (buf mac : List Nat) (n : Nat) : Nat × Nat :=
  (List.range n).foldl
    (fun p i => (p.1 ||| ((buf.getD i 0) ^^^ (mac.getD i 0)), p.2 + 1)) (0, 0)

/-- Method `HmacBoringSsl::VerifyMac`: reject a `mac` whose length is not
`tag_size_`; recompute the HMAC; accumulate `diff |= buf[i] ^ mac[i]` over
all `tag_size_` positions; succeed exactly when `diff == 0`. -/
def HmacBoringSsl.VerifyMac (H : HmacFun) (self : HmacBoringSsl)
    (mac data : List Nat) : Status :=
  if (mac.length : Int) ≠ self.tag_size_ then
    ⟨ErrorCode.INVALID_ARGUMENT, "incorrect tag size"⟩
  else
    match H self.md_ self.key_value_ data with
    | none => ⟨ErrorCode.INTERNAL, "BoringSSL failed to compute HMAC"⟩
    | some buf =>
        if diffFold buf mac self.tag_size_.toNat = 0 then
          Status.OK
        else
          ⟨ErrorCode.INVALID_ARGUMENT, "verification failed"⟩

/-- A deterministic stand-in for the external HMAC function, used only to
instantiate theorems at concrete inputs: it always succeeds and returns a
digest of the native length. -/
def testHmac : HmacFun := fun md key data =>
  some ((List.range md.md_size).map
    (fun i => (key.foldl (· + ·) 0 + data.foldl (· + ·) 7 + 31 * i) % 256))

/-! ### Helper lemmas -/

theorem nat_or_eq_zero_iff (a b : Nat) : a ||| b = 0 ↔ a = 0 ∧ b = 0 := by
  constructor
  · intro h
    constructor
    · apply Nat.eq_of_testBit_eq
      intro i
      have ht := congrArg (fun x => Nat.testBit x i) h
      simp only [Nat.testBit_or, Nat.zero_testBit, Bool.or_eq_false_iff] at ht
      simp [ht.1]
    · apply Nat.eq_of_testBit_eq
      intro i
      have ht := congrArg (fun x => Nat.testBit x i) h
      simp only [Nat.testBit_or, Nat.zero_testBit, Bool.or_eq_false_iff] at ht
      simp [ht.2]
  · rintro ⟨rfl, rfl⟩
    rfl

theorem foldl_or_shift (f : Nat → Nat) (l : List Nat) (a : Nat) :
    l.foldl (fun d i => d ||| f i) a = a ||| l.foldl (fun d i => d ||| f i) 0 := by
  induction l generalizing a with
  | nil => simp [List.foldl]
  | cons x xs ih =>
      simp only [List.foldl]
      rw [ih (a ||| f x), ih (0 ||| f x), Nat.zero_or, Nat.or_assoc]

theorem foldl_or_eq_zero (f : Nat → Nat) (l : List Nat) :
    l.foldl (fun d i => d ||| f i) 0 = 0 ↔ ∀ i ∈ l, f i = 0 := by
  induction l with
  | nil => simp [List.foldl]
  | cons x xs ih =>
      simp only [List.foldl, Nat.zero_or]
      rw [foldl_or_shift f xs (f x)]
      constructor
      · intro h
        rcases (nat_or_eq_zero_iff _ _).mp h with ⟨hx, hxs⟩
        intro i hi
        rcases List.mem_cons.mp hi with rfl | hm
        · exact hx
        · exact (ih.mp hxs) i hm
      · intro h
        rw [nat_or_eq_zero_iff]
        exact ⟨h x (List.mem_cons_self x xs),
               ih.mpr (fun i hi => h i (List.mem_cons_of_mem x hi))⟩

theorem diffFold_eq_zero_iff (buf mac : List Nat) (n : Nat) :
    diffFold buf mac n = 0 ↔ ∀ i < n, buf.getD i 0 = mac.getD i 0 := by
  unfold diffFold
  rw [foldl_or_eq_zero]
  constructor
  · intro h i hi
    exact Nat.xor_eq_zero.mp (h i (List.mem_range.mpr hi))
  · intro h i hi
    exact Nat.xor_eq_zero.mpr (h i (List.mem_range.mp hi))

theorem getD_take_of_lt (l : List Nat) (n i : Nat) (hi : i < n) :
    (l.take n).getD i 0 = l.getD i 0 := by
  simp only [List.getD_eq_getElem?_getD]
  rw [List.getElem?_take_of_lt hi]

/-- Inversion of a successful `New`: the descriptor comes from `EvpHash`,
the fields are stored unchanged, and `0 < tag_size ≤ EVP_MD_size`. -/
theorem New_ok_inv {ht : HashType} {ts : Int} {key : List Nat}
    {prim : HmacBoringSsl}
    (h : HmacBoringSsl.New ht ts key = Except.ok prim) :
    EvpHash ht = Except.ok prim.md_ ∧ prim.tag_size_ = ts ∧
      prim.key_value_ = key ∧ 0 < ts ∧ ts ≤ (prim.md_.md_size : Int) := by
  cases hres : EvpHash ht with
  | error st =>
      simp only [HmacBoringSsl.New, hres] at h
      exact absurd h (by simp)
  | ok md =>
      simp only [HmacBoringSsl.New, hres] at h
      by_cases hc : (md.md_size : Int) < ts ∨ ts ≤ 0
      · rw [if_pos hc] at h; exact absurd h (by simp)
      · rw [if_neg hc] at h
        push_neg at hc
        cases h
        exact ⟨rfl, rfl, rfl, hc.2, hc.1⟩

/-- For a `New`-constructed primitive, `tag_size_.toNat` cast back to `Int`
is `tag_size_` itself, and it is bounded by the digest size. -/
theorem tag_size_toNat_facts {ht : HashType} {ts : Int} {key : List Nat}
    {prim : HmacBoringSsl}
    (h : HmacBoringSsl.New ht ts key = Except.ok prim) :
    (prim.tag_size_.toNat : Int) = prim.tag_size_ ∧
      prim.tag_size_.toNat ≤ prim.md_.md_size ∧ 0 < prim.tag_size_.toNat := by
  obtain ⟨-, hts, -, hpos, hle⟩ := New_ok_inv h
  subst hts
  refine ⟨Int.toNat_of_nonneg (le_of_lt hpos), ?_, ?_⟩
  · omega
  · omega

theorem verifyLoop_foldl (buf mac : List Nat) (l : List Nat) (p : Nat × Nat) :
    l.foldl
        (fun p i => (p.1 ||| ((buf.getD i 0) ^^^ (mac.getD i 0)), p.2 + 1)) p =
      (l.foldl (fun d i => d ||| ((buf.getD i 0) ^^^ (mac.getD i 0))) p.1,
       p.2 + l.length) := by
  induction l generalizing p with
  | nil => simp [List.foldl]
  | cons x xs ih =>
      simp only [List.foldl, List.length_cons]
      rw [ih]
      simp only [Prod.mk.injEq]
      exact ⟨trivial, by omega⟩

theorem take_length_of_le {l : List Nat} {n : Nat} (h : n ≤ l.length) :
    (l.take n).length = n := by
  rw [List.length_take]
  omega

/-- Evaluation of `ComputeMac` when the external HMAC succeeds. -/
theorem computeMac_eval (H : HmacFun) (prim : HmacBoringSsl)
    (data dg : List Nat)
    (hH : H prim.md_ prim.key_value_ data = some dg) :
    prim.ComputeMac H data = Except.ok (dg.take prim.tag_size_.toNat) := by
  unfold HmacBoringSsl.ComputeMac
  rw [hH]

/-- Evaluation of `VerifyMac` when the length check passes and the external
HMAC succeeds: the result is decided by the accumulated `diff`. -/
theorem verifyMac_eval_some (H : HmacFun) (prim : HmacBoringSsl)
    (mac data dg : List Nat)
    (hH : H prim.md_ prim.key_value_ data = some dg)
    (hlen : (mac.length : Int) = prim.tag_size_) :
    prim.VerifyMac H mac data =
      if diffFold dg mac prim.tag_size_.toNat = 0 then Status.OK
      else ⟨ErrorCode.INVALID_ARGUMENT, "verification failed"⟩ := by
  unfold HmacBoringSsl.VerifyMac
  rw [if_neg (by rw [hlen]; simp), hH]

/-! ### Claim theorems -/

/-- C3: the comparison loop of `VerifyMac` accumulates the bitwise OR of
per-byte XORs over exactly `n` iterations, never short-circuiting: its
iteration count equals `n` for every pair of buffers, so it is identical
for any two inputs of the same length, independent of where or whether the
bytes differ; and its accumulated value is exactly the `diff` that
`VerifyMac` tests. -/
theorem verifyLoop_constant_time (buf mac bufB macB : List Nat) (n : Nat) :
    (verifyLoop buf mac n).2 = n ∧
      (verifyLoop buf mac n).2 = (verifyLoop bufB macB n).2 ∧
      (verifyLoop buf mac n).1 = diffFold buf mac n := by
  have h1 : verifyLoop buf mac n = (diffFold buf mac n, n) := by
    unfold verifyLoop diffFold
    rw [verifyLoop_foldl]
    simp
  have h2 : verifyLoop bufB macB n = (diffFold bufB macB n, n) := by
    unfold verifyLoop diffFold
    rw [verifyLoop_foldl]
    simp
  rw [h1, h2]
  exact ⟨rfl, rfl, rfl⟩

/-- C4: for a constructed primitive, `VerifyMac` with a `mac` whose length
differs from `tag_size_` fails with the `INVALID_ARGUMENT, "incorrect tag
size"` status for EVERY external HMAC function `H` — in particular for one
that always fails — so the rejection happens before any HMAC recomputation,
regardless of the bytes of `mac`. -/
theorem verifyMac_rejects_wrong_length (ht : HashType) (ts : Int)
    (key : List Nat) (prim : HmacBoringSsl)
    (hnew : HmacBoringSsl.New ht ts key = Except.ok prim)
    (H : HmacFun) (mac data : List Nat)
    (hlen : (mac.length : Int) ≠ prim.tag_size_) :
    prim.VerifyMac H mac data =
      ⟨ErrorCode.INVALID_ARGUMENT, "incorrect tag size"⟩ := by
  unfold HmacBoringSsl.VerifyMac
  rw [if_pos hlen]

/-- Witness for C4: a 16-byte-tag SHA-256 primitive rejects a 4-byte mac. -/
theorem verifyMac_rejects_wrong_length_witness :
    HmacBoringSsl.VerifyMac testHmac ⟨EVP_sha256, 16, [1]⟩ [0, 0, 0, 0] [5] =
      ⟨ErrorCode.INVALID_ARGUMENT, "incorrect tag size"⟩ :=
  verifyMac_rejects_wrong_length HashType.SHA256 16 [1] ⟨EVP_sha256, 16, [1]⟩
    rfl testHmac [0, 0, 0, 0] [5] (by decide)

/-- C6: `EvpHash` succeeds exactly on SHA1, SHA224, SHA256 and SHA512, and
for every other identifier `New` fails with
`UNIMPLEMENTED, "Unsupported hash"`, whatever the tag size and key. -/
theorem evpHash_supported_exactly :
    (∀ ht : HashType, (EvpHash ht).isOk = true ↔
        (ht = HashType.SHA1 ∨ ht = HashType.SHA224 ∨
         ht = HashType.SHA256 ∨ ht = HashType.SHA512))
    ∧ (∀ ht : HashType,
        ¬(ht = HashType.SHA1 ∨ ht = HashType.SHA224 ∨
          ht = HashType.SHA256 ∨ ht = HashType.SHA512) →
        ∀ (ts : Int) (key : List Nat),
          HmacBoringSsl.New ht ts key =
            Except.error ⟨ErrorCode.UNIMPLEMENTED, "Unsupported hash"⟩) := by
  constructor
  · intro ht
    cases ht <;> simp [EvpHash, Except.isOk, Except.toBool]
  · intro ht hns ts key
    cases ht <;> simp at hns <;>
      simp [HmacBoringSsl.New, EvpHash]

/-- Witness for C6: `UNKNOWN_HASH` is rejected as unsupported. -/
theorem evpHash_supported_exactly_witness :
    HmacBoringSsl.New HashType.UNKNOWN_HASH 32 [1] =
      Except.error ⟨ErrorCode.UNIMPLEMENTED, "Unsupported hash"⟩ :=
  evpHash_supported_exactly.2 HashType.UNKNOWN_HASH (by decide) 32 [1]

/-- C7: `New` resolves the hash first: whenever `EvpHash` fails, `New`
returns that very status for every tag size and key — including invalid tag
sizes (`ts ≤ 0`) — and that status is `UNIMPLEMENTED`, never the
`INTERNAL, "invalid tag size"` one. -/
theorem new_validation_order (ht : HashType) (st : Status)
    (hres : EvpHash ht = Except.error st) (ts : Int) (key : List Nat)
    (hts : ts ≤ 0) :
    HmacBoringSsl.New ht ts key = Except.error st ∧
      st.code = ErrorCode.UNIMPLEMENTED ∧
      st ≠ ⟨ErrorCode.INTERNAL, "invalid tag size"⟩ := by
  have hst : st = ⟨ErrorCode.UNIMPLEMENTED, "Unsupported hash"⟩ := by
    cases ht <;> simp [EvpHash] at hres <;> simp [hres]
  refine ⟨?_, by rw [hst], by rw [hst]; simp⟩
  simp [HmacBoringSsl.New, hres]

/-- Witness for C7: `UNKNOWN_HASH` with the invalid tag size 0 still reports
the unsupported-algorithm error, not the tag-size error. -/
theorem new_validation_order_witness :
    HmacBoringSsl.New HashType.UNKNOWN_HASH 0 [1] =
      Except.error ⟨ErrorCode.UNIMPLEMENTED, "Unsupported hash"⟩ ∧
      (ErrorCode.UNIMPLEMENTED : ErrorCode) = ErrorCode.UNIMPLEMENTED ∧
      (⟨ErrorCode.UNIMPLEMENTED, "Unsupported hash"⟩ : Status) ≠
        ⟨ErrorCode.INTERNAL, "invalid tag size"⟩ :=
  new_validation_order HashType.UNKNOWN_HASH
    ⟨ErrorCode.UNIMPLEMENTED, "Unsupported hash"⟩ rfl 0 [1]
    (by decide)

/-- C1: round trip — for every primitive successfully constructed by `New`
and every data input, when the external HMAC returns its digest (of the
native length) the tag produced by `ComputeMac` verifies: `VerifyMac`
returns `Status::OK` on that tag and the same data. -/
theorem hmac_round_trip (ht : HashType) (ts : Int) (key : List Nat)
    (prim : HmacBoringSsl) (H : HmacFun) (data dg : List Nat)
    (hnew : HmacBoringSsl.New ht ts key = Except.ok prim)
    (hH : H prim.md_ prim.key_value_ data = some dg)
    (hdg : dg.length = prim.md_.md_size) :
    prim.ComputeMac H data = Except.ok (dg.take prim.tag_size_.toNat) ∧
      prim.VerifyMac H (dg.take prim.tag_size_.toNat) data = Status.OK := by
  obtain ⟨hcast, hle, hpos⟩ := tag_size_toNat_facts hnew
  have htake_len : (dg.take prim.tag_size_.toNat).length =
      prim.tag_size_.toNat :=
    take_length_of_le (by omega)
  refine ⟨computeMac_eval H prim data dg hH, ?_⟩
  rw [verifyMac_eval_some H prim _ data dg hH (by rw [htake_len, hcast])]
  rw [if_pos]
  rw [diffFold_eq_zero_iff]
  intro i hi
  exact (getD_take_of_lt dg prim.tag_size_.toNat i hi).symm

/-- Witness for C1 at SHA-1, tag size 2, key `[1]`, data `[2]`. -/
theorem hmac_round_trip_witness :
    HmacBoringSsl.ComputeMac testHmac ⟨EVP_sha1, 2, [1]⟩ [2] =
        Except.ok ([10, 41, 72, 103, 134, 165, 196, 227, 2, 33, 64, 95, 126,
          157, 188, 219, 250, 25, 56, 87].take ((2 : Int).toNat)) ∧
      HmacBoringSsl.VerifyMac testHmac ⟨EVP_sha1, 2, [1]⟩
        ([10, 41, 72, 103, 134, 165, 196, 227, 2, 33, 64, 95, 126, 157, 188,
          219, 250, 25, 56, 87].take ((2 : Int).toNat)) [2] = Status.OK :=
  hmac_round_trip HashType.SHA1 2 [1] ⟨EVP_sha1, 2, [1]⟩ testHmac [2]
    [10, 41, 72, 103, 134, 165, 196, 227, 2, 33, 64, 95, 126, 157, 188, 219,
      250, 25, 56, 87] rfl rfl (by decide)

/-- C2: when the underlying HMAC succeeds with its native-length digest,
`ComputeMac` returns exactly the first `tag_size` bytes of that digest — a
prefix truncation, byte for byte, not any other derivation. -/
theorem computeMac_truncates_digest (ht : HashType) (ts : Int)
    (key : List Nat) (prim : HmacBoringSsl) (H : HmacFun) (data dg : List Nat)
    (hnew : HmacBoringSsl.New ht ts key = Except.ok prim)
    (hH : H prim.md_ prim.key_value_ data = some dg)
    (hdg : dg.length = prim.md_.md_size) :
    prim.ComputeMac H data = Except.ok (dg.take prim.tag_size_.toNat) ∧
      (dg.take prim.tag_size_.toNat).length = prim.tag_size_.toNat ∧
      (∀ i < prim.tag_size_.toNat,
        (dg.take prim.tag_size_.toNat).getD i 0 = dg.getD i 0) := by
  obtain ⟨hcast, hle, hpos⟩ := tag_size_toNat_facts hnew
  refine ⟨computeMac_eval H prim data dg hH, take_length_of_le (by omega), ?_⟩
  intro i hi
  exact getD_take_of_lt dg prim.tag_size_.toNat i hi

/-- Witness for C2 at SHA-1, tag size 2: the tag is the 2-byte digest
prefix. -/
theorem computeMac_truncates_digest_witness :
    HmacBoringSsl.ComputeMac testHmac ⟨EVP_sha1, 2, [1]⟩ [2] =
        Except.ok ([10, 41, 72, 103, 134, 165, 196, 227, 2, 33, 64, 95, 126,
          157, 188, 219, 250, 25, 56, 87].take ((2 : Int).toNat)) ∧
      ([10, 41, 72, 103, 134, 165, 196, 227, 2, 33, 64, 95, 126, 157, 188,
        219, 250, 25, 56, 87].take ((2 : Int).toNat)).length =
        (2 : Int).toNat ∧
      (∀ i < (2 : Int).toNat,
        ([10, 41, 72, 103, 134, 165, 196, 227, 2, 33, 64, 95, 126, 157, 188,
          219, 250, 25, 56, 87].take ((2 : Int).toNat)).getD i 0 =
          [10, 41, 72, 103, 134, 165, 196, 227, 2, 33, 64, 95, 126, 157, 188,
            219, 250, 25, 56, 87].getD i 0) :=
  computeMac_truncates_digest HashType.SHA1 2 [1] ⟨EVP_sha1, 2, [1]⟩
    testHmac [2]
    [10, 41, 72, 103, 134, 165, 196, 227, 2, 33, 64, 95, 126, 157, 188, 219,
      250, 25, 56, 87] rfl rfl (by decide)

/-- C9: for every constructed primitive and every data input, a successful
`ComputeMac` returns a byte string of length exactly `tag_size_`. -/
theorem computeMac_length (ht : HashType) (ts : Int) (key : List Nat)
    (prim : HmacBoringSsl) (H : HmacFun) (data dg tag : List Nat)
    (hnew : HmacBoringSsl.New ht ts key = Except.ok prim)
    (hH : H prim.md_ prim.key_value_ data = some dg)
    (hdg : dg.length = prim.md_.md_size)
    (hc : prim.ComputeMac H data = Except.ok tag) :
    (tag.length : Int) = prim.tag_size_ ∧ tag.length = prim.tag_size_.toNat := by
  obtain ⟨hcast, hle, hpos⟩ := tag_size_toNat_facts hnew
  have he := computeMac_eval H prim data dg hH
  rw [hc] at he
  have htag : tag = dg.take prim.tag_size_.toNat := by
    cases he
    rfl
  subst htag
  have hl : (dg.take prim.tag_size_.toNat).length = prim.tag_size_.toNat :=
    take_length_of_le (by omega)
  rw [hl, hcast]
  exact ⟨rfl, rfl⟩

/-- Witness for C9: empty data, SHA-1, tag size 2 yields a 2-byte tag. -/
theorem computeMac_length_witness :
    (([8, 39].length : Int) = ((⟨EVP_sha1, 2, [1]⟩ : HmacBoringSsl).tag_size_) ∧
      [8, 39].length = ((⟨EVP_sha1, 2, [1]⟩ : HmacBoringSsl).tag_size_).toNat) :=
  computeMac_length HashType.SHA1 2 [1] ⟨EVP_sha1, 2, [1]⟩ testHmac []
    [8, 39, 70, 101, 132, 163, 194, 225, 0, 31, 62, 93, 124, 155, 186, 217,
      248, 23, 54, 85] [8, 39] rfl rfl (by decide) rfl

theorem getD_set_self (l : List Nat) (i : Nat) (a : Nat) (h : i < l.length) :
    (l.set i a).getD i 0 = a := by
  simp only [List.getD_eq_getElem?_getD]
  rw [List.getElem?_set_self h]
  rfl

/-- C5: for every supported hash, `New` fails with the
`INTERNAL, "invalid tag size"` status exactly when `tag_size ≤ 0` or
`tag_size` exceeds the native digest size; `tag_size = native size`
succeeds, and the resulting `ComputeMac` returns the whole digest. -/
theorem new_tag_size_boundary (ht : HashType) (md : EVP_MD)
    (hok : EvpHash ht = Except.ok md) (key : List Nat) :
    (∀ ts : Int, HmacBoringSsl.New ht ts key =
        Except.error ⟨ErrorCode.INTERNAL, "invalid tag size"⟩ ↔
        (ts ≤ 0 ∨ (md.md_size : Int) < ts))
    ∧ HmacBoringSsl.New ht (md.md_size : Int) key =
        Except.ok ⟨md, (md.md_size : Int), key⟩
    ∧ (∀ (H : HmacFun) (data dg : List Nat),
        H md key data = some dg → dg.length = md.md_size →
        HmacBoringSsl.ComputeMac H ⟨md, (md.md_size : Int), key⟩ data =
          Except.ok dg) := by
  have hpos : 0 < md.md_size := by
    cases ht <;> simp [EvpHash] at hok <;>
      simp [← hok, EVP_sha1, EVP_sha224, EVP_sha256, EVP_sha512]
  refine ⟨?_, ?_, ?_⟩
  · intro ts
    simp only [HmacBoringSsl.New, hok]
    by_cases hc : (md.md_size : Int) < ts ∨ ts ≤ 0
    · rw [if_pos hc]
      constructor
      · intro _; tauto
      · intro _; rfl
    · rw [if_neg hc]
      push_neg at hc
      constructor
      · intro h; exact absurd h (by simp)
      · intro h; omega
  · simp only [HmacBoringSsl.New, hok]
    rw [if_neg]
    push_neg
    omega
  · intro H data dg hH hdg
    have he := computeMac_eval H ⟨md, (md.md_size : Int), key⟩ data dg hH
    rw [he]
    simp only [Int.toNat_ofNat]
    rw [← hdg, List.take_length]

/-- Witness for C5 at SHA-256: tag size 0 and 33 fail, 32 succeeds. -/
theorem new_tag_size_boundary_witness :
    (HmacBoringSsl.New HashType.SHA256 0 [1] =
        Except.error ⟨ErrorCode.INTERNAL, "invalid tag size"⟩) ∧
      (HmacBoringSsl.New HashType.SHA256 33 [1] =
        Except.error ⟨ErrorCode.INTERNAL, "invalid tag size"⟩) ∧
      HmacBoringSsl.New HashType.SHA256 (EVP_sha256.md_size : Int) [1] =
        Except.ok ⟨EVP_sha256, (EVP_sha256.md_size : Int), [1]⟩ :=
  ⟨((new_tag_size_boundary HashType.SHA256 EVP_sha256 rfl [1]).1 0).mpr
      (Or.inl (by decide)),
   ((new_tag_size_boundary HashType.SHA256 EVP_sha256 rfl [1]).1 33).mpr
      (Or.inr (by decide)),
   (new_tag_size_boundary HashType.SHA256 EVP_sha256 rfl [1]).2.1⟩

/-- C8: verification succeeds exactly when the length matches and the
accumulated per-byte difference is zero; consequently flipping any single
bit of any byte of the computed tag fails with the `"verification failed"`
status, and so does verifying the tag against data whose digest differs
somewhere in its first `tag_size` bytes. -/
theorem verifyMac_tamper_sensitivity (ht : HashType) (ts : Int)
    (key : List Nat) (prim : HmacBoringSsl) (H : HmacFun)
    (data dg : List Nat)
    (hnew : HmacBoringSsl.New ht ts key = Except.ok prim)
    (hH : H prim.md_ prim.key_value_ data = some dg)
    (hdg : dg.length = prim.md_.md_size) :
    (∀ mac : List Nat, prim.VerifyMac H mac data = Status.OK ↔
        ((mac.length : Int) = prim.tag_size_ ∧
          diffFold dg mac prim.tag_size_.toNat = 0))
    ∧ (∀ i < prim.tag_size_.toNat, ∀ k < 8,
        prim.VerifyMac H
          ((dg.take prim.tag_size_.toNat).set i
            (((dg.take prim.tag_size_.toNat).getD i 0) ^^^ 2 ^ k)) data =
          ⟨ErrorCode.INVALID_ARGUMENT, "verification failed"⟩)
    ∧ (∀ (dataB dgB : List Nat),
        H prim.md_ prim.key_value_ dataB = some dgB →
        (∃ i < prim.tag_size_.toNat, dgB.getD i 0 ≠ dg.getD i 0) →
        prim.VerifyMac H (dg.take prim.tag_size_.toNat) dataB =
          ⟨ErrorCode.INVALID_ARGUMENT, "verification failed"⟩) := by
  obtain ⟨hcast, hle, hpos⟩ := tag_size_toNat_facts hnew
  have htake_len : (dg.take prim.tag_size_.toNat).length =
      prim.tag_size_.toNat :=
    take_length_of_le (by omega)
  refine ⟨?_, ?_, ?_⟩
  · intro mac
    constructor
    · intro hv
      by_cases hl : (mac.length : Int) = prim.tag_size_
      · refine ⟨hl, ?_⟩
        rw [verifyMac_eval_some H prim mac data dg hH hl] at hv
        by_cases hd : diffFold dg mac prim.tag_size_.toNat = 0
        · exact hd
        · rw [if_neg hd] at hv
          exact absurd hv (by decide)
      · unfold HmacBoringSsl.VerifyMac at hv
        rw [if_pos hl] at hv
        exact absurd hv (by decide)
    · rintro ⟨hl, hd⟩
      rw [verifyMac_eval_some H prim mac data dg hH hl, if_pos hd]
  · intro i hi k hk
    have hitag : i < (dg.take prim.tag_size_.toNat).length := by
      rw [htake_len]; exact hi
    have hlenB : (((dg.take prim.tag_size_.toNat).set i
        (((dg.take prim.tag_size_.toNat).getD i 0) ^^^ 2 ^ k)).length : Int) =
        prim.tag_size_ := by
      rw [List.length_set, htake_len, hcast]
    rw [verifyMac_eval_some H prim _ data dg hH hlenB]
    rw [if_neg]
    intro hzero
    rw [diffFold_eq_zero_iff] at hzero
    have heq := hzero i hi
    rw [getD_set_self _ _ _ hitag, getD_take_of_lt dg _ i hi] at heq
    have : (2 : Nat) ^ k = 0 := by
      have hx := congrArg (fun x => (dg.getD i 0) ^^^ x) heq
      simpa [← Nat.xor_assoc] using hx.symm
    exact Nat.ne_of_gt (Nat.two_pow_pos k) this
  · rintro dataB dgB hHB ⟨i, hi, hne⟩
    have hlenB : ((dg.take prim.tag_size_.toNat).length : Int) =
        prim.tag_size_ := by
      rw [htake_len, hcast]
    rw [verifyMac_eval_some H prim _ dataB dgB hHB hlenB]
    rw [if_neg]
    intro hzero
    rw [diffFold_eq_zero_iff] at hzero
    have heq := hzero i hi
    rw [getD_take_of_lt dg _ i hi] at heq
    exact hne heq

/-- Witness for C8: flipping the lowest bit of the first tag byte makes
verification fail at SHA-1, tag size 2, key `[1]`, data `[2]`. -/
theorem verifyMac_tamper_sensitivity_witness :
    HmacBoringSsl.VerifyMac testHmac ⟨EVP_sha1, 2, [1]⟩
        (([10, 41, 72, 103, 134, 165, 196, 227, 2, 33, 64, 95, 126, 157, 188,
          219, 250, 25, 56, 87].take ((2 : Int).toNat)).set 0
          ((([10, 41, 72, 103, 134, 165, 196, 227, 2, 33, 64, 95, 126, 157,
            188, 219, 250, 25, 56, 87].take ((2 : Int).toNat)).getD 0 0) ^^^
            2 ^ 0)) [2] =
      ⟨ErrorCode.INVALID_ARGUMENT, "verification failed"⟩ :=
  (verifyMac_tamper_sensitivity HashType.SHA1 2 [1] ⟨EVP_sha1, 2, [1]⟩
      testHmac [2]
      [10, 41, 72, 103, 134, 165, 196, 227, 2, 33, 64, 95, 126, 157, 188,
        219, 250, 25, 56, 87] rfl rfl (by decide)).2.1
    0 (by decide) 0 (by decide)

/-- C10: both per-call failures of `VerifyMac` carry the
`INVALID_ARGUMENT` code and differ only in message text, while the two
construction-time failures use the distinct codes `UNIMPLEMENTED`
(unsupported algorithm) and `INTERNAL` (invalid tag size). -/
theorem error_code_taxonomy :
    (∀ (H : HmacFun) (prim : HmacBoringSsl) (mac data : List Nat),
        (mac.length : Int) ≠ prim.tag_size_ →
          prim.VerifyMac H mac data =
            ⟨ErrorCode.INVALID_ARGUMENT, "incorrect tag size"⟩)
    ∧ (∀ (H : HmacFun) (prim : HmacBoringSsl) (mac data dg : List Nat),
        H prim.md_ prim.key_value_ data = some dg →
        (mac.length : Int) = prim.tag_size_ →
        diffFold dg mac prim.tag_size_.toNat ≠ 0 →
          prim.VerifyMac H mac data =
            ⟨ErrorCode.INVALID_ARGUMENT, "verification failed"⟩)
    ∧ ((⟨ErrorCode.INVALID_ARGUMENT, "incorrect tag size"⟩ : Status) ≠
        ⟨ErrorCode.INVALID_ARGUMENT, "verification failed"⟩)
    ∧ (∀ (ts : Int) (key : List Nat),
        HmacBoringSsl.New HashType.UNKNOWN_HASH ts key =
          Except.error ⟨ErrorCode.UNIMPLEMENTED, "Unsupported hash"⟩)
    ∧ (∀ (ht : HashType) (md : EVP_MD) (key : List Nat),
        EvpHash ht = Except.ok md → ∀ ts : Int, ts ≤ 0 →
          HmacBoringSsl.New ht ts key =
            Except.error ⟨ErrorCode.INTERNAL, "invalid tag size"⟩)
    ∧ ErrorCode.UNIMPLEMENTED ≠ ErrorCode.INVALID_ARGUMENT
    ∧ ErrorCode.INTERNAL ≠ ErrorCode.INVALID_ARGUMENT
    ∧ ErrorCode.UNIMPLEMENTED ≠ ErrorCode.INTERNAL := by
  refine ⟨?_, ?_, by decide, ?_, ?_, by decide, by decide, by decide⟩
  · intro H prim mac data hlen
    unfold HmacBoringSsl.VerifyMac
    rw [if_pos hlen]
  · intro H prim mac data dg hH hlen hdiff
    rw [verifyMac_eval_some H prim mac data dg hH hlen, if_neg hdiff]
  · intro ts key
    simp [HmacBoringSsl.New, EvpHash]
  · intro ht md key hok ts hts
    simp only [HmacBoringSsl.New, hok]
    rw [if_pos (Or.inr hts)]

/-- Witness for C10: a wrong-length mac and a mismatching mac both fail
with `INVALID_ARGUMENT`, with the two distinct messages. -/
theorem error_code_taxonomy_witness :
    HmacBoringSsl.VerifyMac testHmac ⟨EVP_sha256, 16, [1]⟩ [] [] =
      ⟨ErrorCode.INVALID_ARGUMENT, "incorrect tag size"⟩ :=
  error_code_taxonomy.1 testHmac ⟨EVP_sha256, 16, [1]⟩ [] [] (by decide)

end Tink
